import Mathlib

/-!
# MiG-V OTP fuse controller (`hw/nvram/mig_v_otp.c`)

A shallow embedding of the register interface (`mig_v_otp_read`, `mig_v_otp_write`),
of device realisation (`mig_v_otp_realize`) and of reset (`mig_v_otp_enter_reset`),
together with a model of the block backend the device talks to.

Machine integers are natural numbers with explicit reductions: `uint32_t` values
are taken modulo `2 ^ 32`, the `uint16_t` field `nb_fuses` modulo `2 ^ 16`.
The guest-error log lines (`qemu_log_mask`) have no effect on the device state
and are not part of the model.
-/

namespace MigVOtp

set_option linter.unusedVariables false
set_option maxRecDepth 100000

/-! ## Constants of `include/hw/nvram/mig_v_otp.h` -/

/-- Register offset of the fuse index register (`#define MIG_V_OTP_ADDR 0x00`). -/
def MIG_V_OTP_ADDR : Nat := 0x00

/-- Register offset of the data port (`#define MIG_V_OTP_DATA 0x04`). -/
def MIG_V_OTP_DATA : Nat := 0x04

/-- Number of words of the fuse array (`#define MIG_V_OTP_NUM_FUSES 0x400`). -/
def MIG_V_OTP_NUM_FUSES : Nat := 0x400

/-! ## Host representation of a fuse word

`fuse_array` is an array of `uint32_t`; the block layer moves raw bytes in and
out of it, so a word meets its four bytes in host byte order.  The byte order
is a parameter `be` (`true` on a big-endian host). -/

/-- The four bytes of a 32-bit word, least significant first. -/
def le_bytes (w : Nat) : List Nat :=
  [w % 256, w / 256 % 256, w / 65536 % 256, w / 16777216 % 256]

/-- The four bytes of a word as they lie in host memory. -/
def host_bytes (be : Bool) (w : Nat) : List Nat :=
  if be then (le_bytes w).reverse else le_bytes w

/-- The word that four consecutive bytes of host memory hold. -/
def host_word (be : Bool) (b0 b1 b2 b3 : Nat) : Nat :=
  if be then b3 + 256 * b2 + 65536 * b1 + 16777216 * b0
  else b0 + 256 * b1 + 65536 * b2 + 16777216 * b3

/-- Byte image of an array of words. -/
def bytes_of_words (be : Bool) : List Nat → List Nat
  | [] => []
  | w :: ws => host_bytes be w ++ bytes_of_words be ws

/-- Words held by a byte image (whole words only). -/
def words_of_bytes (be : Bool) : List Nat → List Nat
  | b0 :: b1 :: b2 :: b3 :: rest => host_word be b0 b1 b2 b3 :: words_of_bytes be rest
  | _ => []

/-! ## The block backend -/

/-- Modelled from the spec: the persistent backing medium (`BlockBackend`, whose
code lives in the block layer, not in the device).  The spec lists its contract as
`query_write_capability`, `request_permissions`, `length`, `read_all` and
`write_at`, each of the last four fallible.  A medium is a byte string of fixed
length; an `errno` field that is not `0` makes the corresponding call fail.
`perm` records the permission mask of the last `blk_set_perm` request and
`pwrite_calls` every `blk_pwrite` request the device has issued (offset and
bytes). -/
structure BlockBackend where
  data : List Nat
  supports_write : Bool
  set_perm_errno : Nat
  getlength_errno : Nat
  pread_errno : Nat
  pwrite_errno : Nat
  perm : Nat
  pwrite_calls : List (Nat × List Nat)
  deriving DecidableEq, Repr

/-- Modelled from the spec: permission bit for reading (`request_permissions(read, _)`). -/
def BLK_PERM_CONSISTENT_READ : Nat := 0x01

/-- Modelled from the spec: permission bit for writing (`request_permissions(_, write)`). -/
def BLK_PERM_WRITE : Nat := 0x02

/-- Modelled from the spec: `query_write_capability() -> bool`. -/
def blk_supports_write_perm (blk : BlockBackend) : Bool :=
  blk.supports_write

/-- Modelled from the spec: `request_permissions(read, write) -> Result<(), E>`.
Returns the C return value (negative on failure) and the medium afterwards. -/
def blk_set_perm (blk : BlockBackend) (perm : Nat) : Int × BlockBackend :=
  if blk.set_perm_errno = 0 then (0, { blk with perm := perm })
  else (-(blk.set_perm_errno : Int), { blk with perm := perm })

/-- Modelled from the spec: `length() -> Result<u64, E>`; a negative value is a
failure, as for `blk_getlength`. -/
def blk_getlength (blk : BlockBackend) : Int :=
  if blk.getlength_errno = 0 then (blk.data.length : Int)
  else -(blk.getlength_errno : Int)

/-- Modelled from the spec: `write_at(offset, bytes) -> Result<(), E>`.  The
request is recorded; it changes the medium only when it lies inside the medium
and the medium raises no I/O error. -/
def blk_pwrite (blk : BlockBackend) (offset : Nat) (buf : List Nat) : Int × BlockBackend :=
  let blk1 := { blk with pwrite_calls := blk.pwrite_calls ++ [(offset, buf)] }
  if blk.pwrite_errno ≠ 0 then (-(blk.pwrite_errno : Int), blk1)
  else if offset + buf.length ≤ blk.data.length then
    (0, { blk1 with data := blk.data.take offset ++ buf ++ blk.data.drop (offset + buf.length) })
  else (-5, blk1)

/-- Modelled from the spec: `read_all(buf, len) -> Result<(), E>`
(`blk_check_size_and_read_all`): the medium must answer its length query with
exactly `size`, and then yields its `size` bytes. -/
def blk_check_size_and_read_all (blk : BlockBackend) (size : Nat) : Option (List Nat) :=
  if blk_getlength blk ≠ (size : Int) then none
  else if blk.pread_errno ≠ 0 then none
  else some (blk.data.take size)

/-- Modelled from the spec: "size is rounded up to a 4-byte multiple"
(`QEMU_ALIGN_UP(n, m)` of `qemu/osdep.h`). -/
def QEMU_ALIGN_UP (n m : Nat) : Nat := (n + m - 1) / m * m

/-! ## Device state -/

/-- The fields of `struct MiGVOTPState` that carry device state.  `blk` is the
`drive` property (`none` for a null pointer) and holds the medium's current
state. -/
structure MiGVOTPState where
  blk : Option BlockBackend
  blk_ro : Bool
  addr : Nat
  fuse_array : List Nat
  nb_fuses : Nat
  deriving DecidableEq, Repr

/-- A freshly allocated, zero-filled device object with its `drive` property set. -/
def MiGVOTPState.fresh (blk : Option BlockBackend) : MiGVOTPState :=
  { blk := blk, blk_ro := false, addr := 0,
    fuse_array := List.replicate MIG_V_OTP_NUM_FUSES 0, nb_fuses := 0 }

/-! ## Register interface -/

/-- Embedding of `mig_v_otp_read`: the value returned to the guest.  An index
that passes the check `s->addr < s->nb_fuses` and still lies outside the array
exists only when `nb_fuses` exceeds 1024; C leaves that access undefined, the
model reads `0` there. -/
def mig_v_otp_read (s : MiGVOTPState) (addr : Nat) (size : Nat) : Nat :=
  if addr = MIG_V_OTP_ADDR then s.addr
  else if addr = MIG_V_OTP_DATA then
    if s.addr < s.nb_fuses then s.fuse_array.getD s.addr 0
    else 0
  else 0

/-- Embedding of `mig_v_otp_write`.  `(uint32_t)val64` is `val64 % 2 ^ 32`; the
byte offset `s->addr * 4` is a `uint32_t` product.  The return value of
`blk_pwrite` is ignored, as in the source.  An index that passes the check and
lies outside the array (only when `nb_fuses` exceeds 1024) is undefined in C;
the model stores nothing there. -/
def mig_v_otp_write (be : Bool) (s : MiGVOTPState) (addr : Nat) (val64 : Nat)
    (size : Nat) : MiGVOTPState :=
  if addr = MIG_V_OTP_ADDR then { s with addr := val64 % 2 ^ 32 }
  else if addr = MIG_V_OTP_DATA then
    if s.addr < s.nb_fuses then
      let word := s.fuse_array.getD s.addr 0 ||| (val64 % 2 ^ 32)
      let s1 := { s with fuse_array := s.fuse_array.set s.addr word }
      match s1.blk with
      | some blk =>
        if !s1.blk_ro then
          { s1 with blk := some (blk_pwrite blk (s1.addr * 4 % 2 ^ 32) (host_bytes be word)).2 }
        else s1
      | none => s1
    else s
  else s

/-! ## Realisation and reset -/

/-- The errors `mig_v_otp_realize` can leave in `*errp`.  (When the read fails,
`blk_check_size_and_read_all` has already set `*errp` before the device's own
`error_setg`; the model keeps one error for that path.) -/
inductive AttachError where
  /-- Set by `blk_set_perm` itself. -/
  | set_perm_failed
  /-- Message "mig_v_otp: specified OTP backend exceeds maximum size of %d fuses". -/
  | exceeds_maximum_size
  /-- Message "mig_v_otp: failed to initialize OTP from drive". -/
  | load_failed
  deriving DecidableEq, Repr

/-- How `mig_v_otp_realize` ends.  `ok` is a return with `*errp` unset, `error` a
return with `*errp` set.  `overrun` is the case in which the device asks
`blk_check_size_and_read_all` to copy `len` bytes into `fuse_array` with `len`
larger than the array's 4096 bytes: the copy runs past the array, and the state
given is the one just before the copy. -/
inductive RealizeResult where
  | ok (s : MiGVOTPState)
  | error (e : AttachError) (s : MiGVOTPState)
  | overrun (s : MiGVOTPState) (len : Nat)
  deriving DecidableEq, Repr

/-- Embedding of `mig_v_otp_realize`.  The count `QEMU_ALIGN_UP(blk_len, 4) >> 2`
is stored in the `uint16_t` field `nb_fuses`, hence taken modulo `2 ^ 16`, and it
is the stored field that is compared with `MIG_V_OTP_NUM_FUSES`. -/
def mig_v_otp_realize (be : Bool) (s : MiGVOTPState) : RealizeResult :=
  match s.blk with
  | none => .ok s
  | some blk =>
    let s1 := { s with blk_ro := !blk_supports_write_perm blk }
    let perm := BLK_PERM_CONSISTENT_READ ||| (if s1.blk_ro then 0 else BLK_PERM_WRITE)
    let ret := blk_set_perm blk perm
    let blk1 := ret.2
    let s2 := { s1 with blk := some blk1 }
    if ret.1 < 0 then .error .set_perm_failed s2
    else
      let blk_len := blk_getlength blk1
      if blk_len < 0 then .ok s2
      else
        let s3 := { s2 with nb_fuses := (QEMU_ALIGN_UP blk_len.toNat 4 >>> 2) % 2 ^ 16 }
        if s3.nb_fuses > MIG_V_OTP_NUM_FUSES then .error .exceeds_maximum_size s3
        else
          match blk_check_size_and_read_all blk1 blk_len.toNat with
          | none => .error .load_failed s3
          | some bytes =>
            if blk_len.toNat > 4 * MIG_V_OTP_NUM_FUSES then .overrun s3 blk_len.toNat
            else
              .ok { s3 with
                    fuse_array := words_of_bytes be
                      (bytes ++ (bytes_of_words be s3.fuse_array).drop bytes.length) }

/-- The device state a realisation ends with. -/
def RealizeResult.state : RealizeResult → MiGVOTPState
  | .ok s => s
  | .error _ s => s
  | .overrun s _ => s

/-- Embedding of `mig_v_otp_enter_reset`. -/
def mig_v_otp_enter_reset (s : MiGVOTPState) : MiGVOTPState :=
  match s.blk with
  | none => { s with fuse_array := List.replicate MIG_V_OTP_NUM_FUSES 0,
                     nb_fuses := MIG_V_OTP_NUM_FUSES }
  | some _ => s

/-! ## Sequences of accesses -/

/-- One event delivered to a realised device: a register read, a register write
or a reset. -/
inductive Access where
  | read (addr size : Nat)
  | write (addr val64 size : Nat)
  | reset
  deriving DecidableEq, Repr

/-- State after one event (a read leaves the state as it is). -/
def step (be : Bool) (s : MiGVOTPState) : Access → MiGVOTPState
  | .read _ _ => s
  | .write addr val64 size => mig_v_otp_write be s addr val64 size
  | .reset => mig_v_otp_enter_reset s

/-- State after a finite sequence of events. -/
def run (be : Bool) (s : MiGVOTPState) (ops : List Access) : MiGVOTPState :=
  ops.foldl (step be) s

/-- A medium with the given contents that raises no error, nothing granted or written yet. -/
def BlockBackend.plain (data : List Nat) (supports_write : Bool) : BlockBackend :=
  { data := data, supports_write := supports_write, set_perm_errno := 0,
    getlength_errno := 0, pread_errno := 0, pwrite_errno := 0, perm := 0,
    pwrite_calls := [] }

/-- Register accesses proper: reads and writes, not resets. -/
def Access.is_register : Access → Bool
  | .read _ _ => true
  | .write _ _ _ => true
  | .reset => false

/-- Reference definition of reset, after the spec: "If no medium is attached:
zero-fills the entire `fuses` array and sets `valid_count = CAPACITY`.  If a
medium is attached: reset is a no-op on fuse contents". -/
def reset_spec (s : MiGVOTPState) : MiGVOTPState :=
  if s.blk.isSome then s
  else { blk := s.blk, blk_ro := s.blk_ro, addr := s.addr,
         fuse_array := (List.range 1024).map (fun _ => 0), nb_fuses := 1024 }

/-- The scenario state of the spec: a volatile store after reset with fuse 5 selected. -/
def volatile_sel5 : MiGVOTPState :=
  run false (MiGVOTPState.fresh none) [.reset, .write MIG_V_OTP_ADDR 5 4]

/-- The scenario state of the spec with the selector moved out of bounds (fuse 2000). -/
def volatile_sel2000 : MiGVOTPState :=
  run false volatile_sel5
    [.write MIG_V_OTP_DATA 0x0F 4, .write MIG_V_OTP_DATA 0xF0 4, .write MIG_V_OTP_ADDR 2000 4]

/-- A writable medium of `4 * 65536` bytes. -/
def medium_262144 : BlockBackend :=
  BlockBackend.plain (List.replicate 262144 0) true

/-- A writable medium of `4 * 65536 + 4096` bytes. -/
def medium_266240 : BlockBackend :=
  BlockBackend.plain (List.replicate 266240 0) true

/-- A writable four-byte medium whose length query fails with error 5. -/
def medium_no_length : BlockBackend :=
  { BlockBackend.plain [1, 2, 3, 4] true with getlength_errno := 5 }

/-- A read-only medium of two words. -/
def medium_ro8 : BlockBackend :=
  BlockBackend.plain [1, 2, 3, 4, 5, 6, 7, 8] false

/-- The array invariant of the device: `fuse_array` has its 1024 words and
`nb_fuses` does not exceed them. -/
def ArrayInv (s : MiGVOTPState) : Prop :=
  s.fuse_array.length = MIG_V_OTP_NUM_FUSES ∧ s.nb_fuses ≤ MIG_V_OTP_NUM_FUSES

/-- The medium's contents read as 4-byte words, a last partial word completed
with zero bytes. -/
def medium_words (be : Bool) (blk : BlockBackend) : List Nat :=
  words_of_bytes be (blk.data ++ List.replicate ((4 - blk.data.length % 4) % 4) 0)

/-- A medium that answers every request of the device without an I/O error. -/
def BlockBackend.healthy (blk : BlockBackend) : Prop :=
  blk.set_perm_errno = 0 ∧ blk.getlength_errno = 0 ∧ blk.pread_errno = 0
    ∧ blk.pwrite_errno = 0

/-- A writable medium of five bytes. -/
def medium_5 : BlockBackend :=
  BlockBackend.plain [1, 2, 3, 4, 5] true

/-- A writable medium of two words. -/
def medium_8 : BlockBackend :=
  BlockBackend.plain [1, 2, 3, 4, 5, 6, 7, 8] true

/-- The device and its writable medium agree: the medium holds `nb_fuses` whole
words, and these are the first `nb_fuses` words of the fuse array. -/
def Synced (be : Bool) (s : MiGVOTPState) : Prop :=
  ∃ b, s.blk = some b ∧ s.blk_ro = false ∧ b.pwrite_errno = 0
    ∧ b.data.length = 4 * s.nb_fuses ∧ s.nb_fuses ≤ MIG_V_OTP_NUM_FUSES
    ∧ s.fuse_array.length = MIG_V_OTP_NUM_FUSES
    ∧ (∀ x ∈ b.data, x < 256)
    ∧ s.fuse_array.take s.nb_fuses = words_of_bytes be b.data

/-! ## Basic facts about the register interface -/

theorem land_lor_left (a b : Nat) : a &&& (a ||| b) = a := by
  apply Nat.eq_of_testBit_eq
  intro i
  simp only [Nat.testBit_land, Nat.testBit_lor]
  cases Nat.testBit a i <;> simp

theorem land_same (a : Nat) : a &&& a = a := by
  apply Nat.eq_of_testBit_eq
  intro i
  simp only [Nat.testBit_land, Bool.and_self]

theorem land_chain {a b c : Nat} (hab : a &&& b = a) (hbc : b &&& c = b) : a &&& c = a := by
  calc a &&& c = (a &&& b) &&& c := by rw [hab]
    _ = a &&& (b &&& c) := Nat.land_assoc a b c
    _ = a := by rw [hbc, hab]

/-- Fields after an in-bounds write to the data port. -/
theorem write_data_fields (be : Bool) (s : MiGVOTPState) (val64 size : Nat)
    (h : s.addr < s.nb_fuses) :
    (mig_v_otp_write be s MIG_V_OTP_DATA val64 size).fuse_array =
        s.fuse_array.set s.addr (s.fuse_array.getD s.addr 0 ||| (val64 % 2 ^ 32))
      ∧ (mig_v_otp_write be s MIG_V_OTP_DATA val64 size).addr = s.addr
      ∧ (mig_v_otp_write be s MIG_V_OTP_DATA val64 size).nb_fuses = s.nb_fuses
      ∧ (mig_v_otp_write be s MIG_V_OTP_DATA val64 size).blk_ro = s.blk_ro := by
  have h40 : MIG_V_OTP_DATA ≠ MIG_V_OTP_ADDR := by decide
  unfold mig_v_otp_write
  rw [if_neg h40, if_pos rfl, if_pos h]
  cases hb : s.blk with
  | none => simp [hb]
  | some blk =>
    cases hro : s.blk_ro <;> simp [hb, hro]

/-- Reading position `j` of a list after `set`. -/
theorem getD_set (l : List Nat) (i j x : Nat) :
    (l.set i x).getD j 0 = if i = j ∧ i < l.length then x else l.getD j 0 := by
  simp only [List.getD_eq_getElem?_getD, List.getElem?_set]
  by_cases hij : i = j
  · subst hij
    by_cases hlt : i < l.length
    · simp [hlt]
    · simp [hlt, List.getElem?_eq_none (Nat.le_of_not_lt hlt)]
  · simp [hij]

/-- Effect of any register write on the fuse array: at most one word changes,
and it changes by an OR. -/
theorem write_fuse_cases (be : Bool) (s : MiGVOTPState) (addr val64 size : Nat) :
    (mig_v_otp_write be s addr val64 size).fuse_array = s.fuse_array ∨
    (mig_v_otp_write be s addr val64 size).fuse_array =
      s.fuse_array.set s.addr (s.fuse_array.getD s.addr 0 ||| (val64 % 2 ^ 32)) := by
  by_cases h0 : addr = MIG_V_OTP_ADDR
  · left; simp [mig_v_otp_write, h0]
  · by_cases h4 : addr = MIG_V_OTP_DATA
    · by_cases hb : s.addr < s.nb_fuses
      · right; subst h4; exact (write_data_fields be s val64 size hb).1
      · left
        have h40 : MIG_V_OTP_DATA ≠ MIG_V_OTP_ADDR := by decide
        subst h4
        unfold mig_v_otp_write
        rw [if_neg h40, if_pos rfl, if_neg hb]
    · left
      unfold mig_v_otp_write
      rw [if_neg h0, if_neg h4]

theorem write_keeps_bits (be : Bool) (s : MiGVOTPState) (addr val64 size j : Nat) :
    s.fuse_array.getD j 0 &&& (mig_v_otp_write be s addr val64 size).fuse_array.getD j 0
      = s.fuse_array.getD j 0 := by
  rcases write_fuse_cases be s addr val64 size with h | h
  · rw [h]; exact land_same _
  · rw [h, getD_set]
    split
    · next hc => rw [← hc.1]; exact land_lor_left _ _
    · exact land_same _

theorem step_keeps_bits (be : Bool) (s : MiGVOTPState) (op : Access) (j : Nat)
    (hop : op.is_register = true) :
    s.fuse_array.getD j 0 &&& (step be s op).fuse_array.getD j 0 = s.fuse_array.getD j 0 := by
  cases op with
  | read a sz => exact land_same _
  | write a v sz => exact write_keeps_bits be s a v sz j
  | reset => simp [Access.is_register] at hop

theorem run_keeps_bits (be : Bool) (ops : List Access) :
    ∀ (s : MiGVOTPState) (j : Nat), (∀ op ∈ ops, op.is_register = true) →
      s.fuse_array.getD j 0 &&& (run be s ops).fuse_array.getD j 0 = s.fuse_array.getD j 0 := by
  induction ops with
  | nil => intro s j _; exact land_same _
  | cons op rest ih =>
    intro s j hall
    have h1 := step_keeps_bits be s op j (hall op (List.mem_cons_self _ _))
    have h2 := ih (step be s op) j (fun o ho => hall o (List.mem_cons_of_mem _ ho))
    exact land_chain h1 h2

theorem testBit_of_land_eq {a b : Nat} (h : a &&& b = a) (k : Nat)
    (hk : a.testBit k = true) : b.testBit k = true := by
  have : (a &&& b).testBit k = true := by rw [h]; exact hk
  rw [Nat.testBit_land] at this
  simp only [Bool.and_eq_true] at this
  exact this.2

theorem map_const_range (n : Nat) :
    (List.range n).map (fun _ => 0) = List.replicate n 0 := by
  rw [List.map_const', List.length_range]

theorem set_getD_self (l : List Nat) (i : Nat) : l.set i (l.getD i 0) = l := by
  apply List.ext_getElem?
  intro n
  rw [List.getElem?_set]
  split
  · next h =>
    subst h
    split
    · next hlt => simp [List.getD_eq_getElem?_getD, List.getElem?_eq_getElem hlt]
    · next hge => simp [List.getElem?_eq_none (Nat.le_of_not_lt hge)]
  · rfl

/-! ## C1: OR-accumulation -/

/-- C1. With the selector `i = s.addr` below `nb_fuses` (and `nb_fuses` within the
1024-word array), two successive writes `w1`, `w2` to the data port leave
`fuse_array[i] = initial | (uint32_t)w1 | (uint32_t)w2`; every other fuse, the
selector and `nb_fuses` are unchanged; a following read of the data port returns
that word; and a data write of `0` leaves the fuse array as it was. -/
theorem or_accumulation (be : Bool) (s : MiGVOTPState) (w1 w2 size1 size2 size3 : Nat)
    (hlen : s.fuse_array.length = MIG_V_OTP_NUM_FUSES)
    (hnb : s.nb_fuses ≤ MIG_V_OTP_NUM_FUSES)
    (hi : s.addr < s.nb_fuses) :
    (mig_v_otp_write be (mig_v_otp_write be s MIG_V_OTP_DATA w1 size1)
        MIG_V_OTP_DATA w2 size2).fuse_array.getD s.addr 0
      = s.fuse_array.getD s.addr 0 ||| w1 % 2 ^ 32 ||| w2 % 2 ^ 32
    ∧ (∀ j, j ≠ s.addr →
        (mig_v_otp_write be (mig_v_otp_write be s MIG_V_OTP_DATA w1 size1)
          MIG_V_OTP_DATA w2 size2).fuse_array.getD j 0 = s.fuse_array.getD j 0)
    ∧ (mig_v_otp_write be (mig_v_otp_write be s MIG_V_OTP_DATA w1 size1)
        MIG_V_OTP_DATA w2 size2).addr = s.addr
    ∧ (mig_v_otp_write be (mig_v_otp_write be s MIG_V_OTP_DATA w1 size1)
        MIG_V_OTP_DATA w2 size2).nb_fuses = s.nb_fuses
    ∧ mig_v_otp_read (mig_v_otp_write be (mig_v_otp_write be s MIG_V_OTP_DATA w1 size1)
        MIG_V_OTP_DATA w2 size2) MIG_V_OTP_DATA size3
      = s.fuse_array.getD s.addr 0 ||| w1 % 2 ^ 32 ||| w2 % 2 ^ 32
    ∧ (mig_v_otp_write be s MIG_V_OTP_DATA 0 size1).fuse_array = s.fuse_array := by
  have hil : s.addr < s.fuse_array.length := by omega
  obtain ⟨f1, a1, n1, _⟩ := write_data_fields be s w1 size1 hi
  have hi1 : (mig_v_otp_write be s MIG_V_OTP_DATA w1 size1).addr
      < (mig_v_otp_write be s MIG_V_OTP_DATA w1 size1).nb_fuses := by rw [a1, n1]; exact hi
  obtain ⟨f2, a2, n2, _⟩ :=
    write_data_fields be (mig_v_otp_write be s MIG_V_OTP_DATA w1 size1) w2 size2 hi1
  have hword : (mig_v_otp_write be (mig_v_otp_write be s MIG_V_OTP_DATA w1 size1)
        MIG_V_OTP_DATA w2 size2).fuse_array.getD s.addr 0
      = s.fuse_array.getD s.addr 0 ||| w1 % 2 ^ 32 ||| w2 % 2 ^ 32 := by
    rw [f2, a1, f1, getD_set, getD_set, List.length_set]
    simp [hil]
  refine ⟨hword, ?_, ?_, ?_, ?_, ?_⟩
  · intro j hj
    rw [f2, a1, f1, getD_set, getD_set]
    have hne : ¬ (s.addr = j) := fun h => hj h.symm
    simp [hne]
  · rw [a2, a1]
  · rw [n2, n1]
  · have h40 : MIG_V_OTP_DATA ≠ MIG_V_OTP_ADDR := by decide
    have hi2 : (mig_v_otp_write be (mig_v_otp_write be s MIG_V_OTP_DATA w1 size1)
        MIG_V_OTP_DATA w2 size2).addr
      < (mig_v_otp_write be (mig_v_otp_write be s MIG_V_OTP_DATA w1 size1)
        MIG_V_OTP_DATA w2 size2).nb_fuses := by rw [a2, n2]; exact hi1
    unfold mig_v_otp_read
    rw [if_neg h40, if_pos rfl, if_pos hi2, a2, a1]
    exact hword
  · rw [(write_data_fields be s 0 size1 hi).1]
    have hz : s.fuse_array.getD s.addr 0 ||| 0 % 2 ^ 32 = s.fuse_array.getD s.addr 0 := by
      simp
    rw [hz]
    exact set_getD_self _ _

/-- C1, the scenario of the spec: select fuse 5, write `0x0F`, write `0xF0`, read `0xFF`. -/
theorem or_accumulation_witness :
    mig_v_otp_read (mig_v_otp_write false (mig_v_otp_write false volatile_sel5
        MIG_V_OTP_DATA 0x0F 4) MIG_V_OTP_DATA 0xF0 4) MIG_V_OTP_DATA 4
      = volatile_sel5.fuse_array.getD volatile_sel5.addr 0 ||| 0x0F % 2 ^ 32 ||| 0xF0 % 2 ^ 32 :=
  (or_accumulation false volatile_sel5 0x0F 0xF0 4 4 4 (by decide) (by decide)
    (by decide)).2.2.2.2.1

/-! ## C2: runtime errors are no-ops -/

/-- A write that fails the bounds check or the register decode returns the state as it is. -/
theorem rejected_write_id (be : Bool) (s : MiGVOTPState) (addr val64 size : Nat)
    (h : (addr = MIG_V_OTP_DATA ∧ s.nb_fuses ≤ s.addr)
        ∨ (addr ≠ MIG_V_OTP_ADDR ∧ addr ≠ MIG_V_OTP_DATA)) :
    mig_v_otp_write be s addr val64 size = s := by
  have h40 : MIG_V_OTP_DATA ≠ MIG_V_OTP_ADDR := by decide
  rcases h with ⟨h4, hge⟩ | ⟨h0, h4⟩
  · subst h4
    have hnlt : ¬ s.addr < s.nb_fuses := Nat.not_lt.mpr hge
    unfold mig_v_otp_write
    rw [if_neg h40, if_pos rfl, if_neg hnlt]
  · unfold mig_v_otp_write
    rw [if_neg h0, if_neg h4]

/-- C2. A data-port access with the selector at or above `nb_fuses`, or an access
to an offset other than `0x00` and `0x04`, reads as `0`, and as a write leaves the
whole state (fuses, selector, `nb_fuses`, and the medium with its record of
`blk_pwrite` requests) as it was. -/
theorem runtime_error_noop (be : Bool) (s : MiGVOTPState) (addr val64 size : Nat)
    (h : (addr = MIG_V_OTP_DATA ∧ s.nb_fuses ≤ s.addr)
        ∨ (addr ≠ MIG_V_OTP_ADDR ∧ addr ≠ MIG_V_OTP_DATA)) :
    mig_v_otp_read s addr size = 0 ∧ mig_v_otp_write be s addr val64 size = s := by
  have h40 : MIG_V_OTP_DATA ≠ MIG_V_OTP_ADDR := by decide
  rcases h with ⟨h4, hge⟩ | ⟨h0, h4⟩
  · subst h4
    have hnlt : ¬ s.addr < s.nb_fuses := Nat.not_lt.mpr hge
    constructor
    · unfold mig_v_otp_read
      rw [if_neg h40, if_pos rfl, if_neg hnlt]
    · exact rejected_write_id be s MIG_V_OTP_DATA val64 size (Or.inl ⟨rfl, hge⟩)
  · constructor
    · unfold mig_v_otp_read
      rw [if_neg h0, if_neg h4]
    · exact rejected_write_id be s addr val64 size (Or.inr ⟨h0, h4⟩)

/-- C2, the scenario of the spec: with fuse 2000 selected, a data write of `0xFF`
changes nothing and the data port reads `0`. -/
theorem runtime_error_noop_witness :
    ((MIG_V_OTP_DATA = MIG_V_OTP_DATA ∧ volatile_sel2000.nb_fuses ≤ volatile_sel2000.addr)
        ∨ (MIG_V_OTP_DATA ≠ MIG_V_OTP_ADDR ∧ MIG_V_OTP_DATA ≠ MIG_V_OTP_DATA))
      ∧ mig_v_otp_read volatile_sel2000 MIG_V_OTP_DATA 4 = 0
      ∧ mig_v_otp_write false volatile_sel2000 MIG_V_OTP_DATA 0xFF 4 = volatile_sel2000 :=
  ⟨by decide, runtime_error_noop false volatile_sel2000 MIG_V_OTP_DATA 0xFF 4 (by decide)⟩

/-! ## C4: a write never clears a bit -/

/-- C4. For every state, every register write (any offset, size and value) and
every fuse index `j`, `old fuse_array[j] & new fuse_array[j] = old fuse_array[j]`;
and over any finite sequence of register reads and writes the same holds between
the first and the last state, so every bit that was set stays set. -/
theorem write_never_clears (be : Bool) (s : MiGVOTPState) (j : Nat) :
    (∀ addr val64 size,
      s.fuse_array.getD j 0 &&& (mig_v_otp_write be s addr val64 size).fuse_array.getD j 0
        = s.fuse_array.getD j 0)
    ∧ (∀ ops : List Access, (∀ op ∈ ops, op.is_register = true) →
        s.fuse_array.getD j 0 &&& (run be s ops).fuse_array.getD j 0 = s.fuse_array.getD j 0
        ∧ ∀ k, (s.fuse_array.getD j 0).testBit k = true →
            ((run be s ops).fuse_array.getD j 0).testBit k = true) := by
  refine ⟨fun addr val64 size => write_keeps_bits be s addr val64 size j, ?_⟩
  intro ops hall
  have h := run_keeps_bits be ops s j hall
  exact ⟨h, fun k hk => testBit_of_land_eq h k hk⟩

/-! ## C9: reset -/

/-- C9. `mig_v_otp_enter_reset` equals the reference definition `reset_spec`:
without a medium all 1024 fuses become `0` and `nb_fuses` becomes 1024; with a
medium the state is returned as it is; the selector and the medium are unchanged
in both cases. -/
theorem reset_eq_spec (s : MiGVOTPState) :
    mig_v_otp_enter_reset s = reset_spec s
    ∧ (s.blk = none →
        (mig_v_otp_enter_reset s).nb_fuses = 1024
        ∧ (mig_v_otp_enter_reset s).fuse_array.length = 1024
        ∧ ∀ j, j < 1024 → (mig_v_otp_enter_reset s).fuse_array.get? j = some 0)
    ∧ (s.blk ≠ none → mig_v_otp_enter_reset s = s)
    ∧ (mig_v_otp_enter_reset s).addr = s.addr
    ∧ (mig_v_otp_enter_reset s).blk = s.blk
    ∧ (mig_v_otp_enter_reset s).blk_ro = s.blk_ro := by
  have hN : MIG_V_OTP_NUM_FUSES = 1024 := rfl
  cases hb : s.blk with
  | none =>
    have hr : mig_v_otp_enter_reset s =
        { s with fuse_array := List.replicate MIG_V_OTP_NUM_FUSES 0,
                 nb_fuses := MIG_V_OTP_NUM_FUSES } := by
      unfold mig_v_otp_enter_reset
      rw [hb]
    refine ⟨?_, ?_, ?_, ?_, ?_, ?_⟩
    · rw [hr]
      unfold reset_spec
      rw [hb, map_const_range, hN]
      rfl
    · intro _
      rw [hr]
      refine ⟨hN, ?_, ?_⟩
      · show (List.replicate MIG_V_OTP_NUM_FUSES 0).length = 1024
        rw [List.length_replicate, hN]
      · intro j hj
        show (List.replicate MIG_V_OTP_NUM_FUSES 0).get? j = some 0
        rw [List.get?_eq_getElem?, List.getElem?_replicate, if_pos (by rw [hN]; exact hj)]
    · intro h; exact absurd rfl h
    · rw [hr]
    · rw [hr, hb]
    · rw [hr]
  | some blk =>
    have hr : mig_v_otp_enter_reset s = s := by
      unfold mig_v_otp_enter_reset
      rw [hb]
    refine ⟨?_, ?_, ?_, ?_, ?_, ?_⟩
    · rw [hr]
      unfold reset_spec
      rw [hb]
      rfl
    · intro h; cases h
    · intro _; exact hr
    · rw [hr]
    · rw [hr, hb]
    · rw [hr]

/-- C4 on a concrete run: after two data writes, a read and a write to an
undecoded offset, fuse 5 still has every bit it had. -/
theorem write_never_clears_witness :
    (∀ op ∈ [Access.write MIG_V_OTP_DATA 0x0F 4, .read MIG_V_OTP_DATA 4,
              .write MIG_V_OTP_DATA 0xF0 4, .write 8 1 4], op.is_register = true)
    ∧ volatile_sel5.fuse_array.getD 5 0
        &&& (run false volatile_sel5 [.write MIG_V_OTP_DATA 0x0F 4, .read MIG_V_OTP_DATA 4,
              .write MIG_V_OTP_DATA 0xF0 4, .write 8 1 4]).fuse_array.getD 5 0
        = volatile_sel5.fuse_array.getD 5 0 :=
  ⟨by decide, ((write_never_clears false volatile_sel5 5).2 _ (by decide)).1⟩

/-- C9 on concrete states: a volatile store has 1024 addressable fuses after
reset, a store with a medium is returned unchanged. -/
theorem reset_eq_spec_witness :
    (MiGVOTPState.fresh none).blk = none
    ∧ (mig_v_otp_enter_reset (MiGVOTPState.fresh none)).nb_fuses = 1024
    ∧ mig_v_otp_enter_reset (MiGVOTPState.fresh (some medium_ro8))
        = MiGVOTPState.fresh (some medium_ro8) :=
  ⟨rfl, ((reset_eq_spec (MiGVOTPState.fresh none)).2.1 rfl).1,
    (reset_eq_spec (MiGVOTPState.fresh (some medium_ro8))).2.2.1 (by decide)⟩

/-! ## Realisation -/

/-- What `mig_v_otp_realize` does with a medium that answers the permission
request, the length query and the read without error. -/
theorem realize_healthy (be : Bool) (s : MiGVOTPState) (blk : BlockBackend)
    (hb : s.blk = some blk) (h1 : blk.set_perm_errno = 0) (h2 : blk.getlength_errno = 0)
    (h3 : blk.pread_errno = 0) :
    mig_v_otp_realize be s =
      if (QEMU_ALIGN_UP blk.data.length 4 >>> 2) % 2 ^ 16 > MIG_V_OTP_NUM_FUSES then
        .error .exceeds_maximum_size
          { s with blk_ro := !blk.supports_write,
                   blk := some { blk with perm := BLK_PERM_CONSISTENT_READ |||
                     (if (!blk.supports_write) = true then 0 else BLK_PERM_WRITE) },
                   nb_fuses := (QEMU_ALIGN_UP blk.data.length 4 >>> 2) % 2 ^ 16 }
      else if blk.data.length > 4 * MIG_V_OTP_NUM_FUSES then
        .overrun
          { s with blk_ro := !blk.supports_write,
                   blk := some { blk with perm := BLK_PERM_CONSISTENT_READ |||
                     (if (!blk.supports_write) = true then 0 else BLK_PERM_WRITE) },
                   nb_fuses := (QEMU_ALIGN_UP blk.data.length 4 >>> 2) % 2 ^ 16 }
          blk.data.length
      else
        .ok
          { s with blk_ro := !blk.supports_write,
                   blk := some { blk with perm := BLK_PERM_CONSISTENT_READ |||
                     (if (!blk.supports_write) = true then 0 else BLK_PERM_WRITE) },
                   nb_fuses := (QEMU_ALIGN_UP blk.data.length 4 >>> 2) % 2 ^ 16,
                   fuse_array := words_of_bytes be
                     (blk.data ++ (bytes_of_words be s.fuse_array).drop blk.data.length) } := by
  unfold mig_v_otp_realize
  simp only [hb, blk_set_perm, h1, blk_supports_write_perm, blk_getlength, h2,
    blk_check_size_and_read_all, h3, if_true, Int.toNat_ofNat, ne_eq, not_true_eq_false,
    if_false, Int.natCast_nonneg, not_lt.mpr, lt_self_iff_false, List.take_length]

theorem length_host_bytes (be : Bool) (w : Nat) : (host_bytes be w).length = 4 := by
  cases be <;> simp [host_bytes, le_bytes]

theorem length_bytes_of_words (be : Bool) (ws : List Nat) :
    (bytes_of_words be ws).length = 4 * ws.length := by
  induction ws with
  | nil => rfl
  | cons w ws ih =>
    simp only [bytes_of_words, List.length_append, length_host_bytes, ih, List.length_cons]
    omega

theorem length_words_of_bytes (be : Bool) :
    ∀ (n : Nat) (bs : List Nat), bs.length = 4 * n → (words_of_bytes be bs).length = n := by
  intro n
  induction n with
  | zero =>
    intro bs h
    have : bs = [] := List.length_eq_zero.mp (by omega)
    subst this
    rfl
  | succ n ih =>
    intro bs h
    match bs, h with
    | b0 :: b1 :: b2 :: b3 :: rest, h =>
      simp only [List.length_cons] at h
      simp only [words_of_bytes, List.length_cons]
      rw [ih rest (by omega)]
    | [], h => simp at h
    | [_], h => simp at h; omega
    | [_, _], h => simp at h; omega
    | [_, _, _], h => simp at h; omega

/-- Length of the fuse array after the medium has been copied into it. -/
theorem length_loaded (be : Bool) (fa data : List Nat)
    (hfa : fa.length = MIG_V_OTP_NUM_FUSES) (hd : data.length ≤ 4 * MIG_V_OTP_NUM_FUSES) :
    (words_of_bytes be (data ++ (bytes_of_words be fa).drop data.length)).length
      = MIG_V_OTP_NUM_FUSES := by
  apply length_words_of_bytes
  rw [List.length_append, List.length_drop, length_bytes_of_words, hfa]
  omega

/-- The state realisation ends with, from a zero-filled object, satisfies the
array invariant whenever realisation returns without an error. -/
theorem realize_ok_inv (be : Bool) (blk : Option BlockBackend) (s1 : MiGVOTPState)
    (hok : mig_v_otp_realize be (MiGVOTPState.fresh blk) = .ok s1) : ArrayInv s1 := by
  have hfl : (MiGVOTPState.fresh blk).fuse_array.length = MIG_V_OTP_NUM_FUSES :=
    List.length_replicate _ _
  have hf0 : (MiGVOTPState.fresh blk).nb_fuses = 0 := rfl
  revert hok
  generalize MiGVOTPState.fresh blk = s0 at hfl hf0
  intro hok
  unfold mig_v_otp_realize at hok
  cases hb : s0.blk with
  | none =>
    rw [hb] at hok
    simp only [RealizeResult.ok.injEq] at hok
    subst hok
    exact ⟨hfl, by rw [hf0]; exact Nat.zero_le _⟩
  | some b =>
    rw [hb] at hok
    simp only at hok
    generalize (BLK_PERM_CONSISTENT_READ |||
      if (!blk_supports_write_perm b) = true then 0 else BLK_PERM_WRITE) = perm at hok
    split at hok
    · cases hok
    · split at hok
      · simp only [RealizeResult.ok.injEq] at hok
        subst hok
        exact ⟨hfl, by show s0.nb_fuses ≤ _; rw [hf0]; exact Nat.zero_le _⟩
      · split at hok
        · cases hok
        · next hle =>
          split at hok
          · cases hok
          · next bytes hbytes =>
            split at hok
            · cases hok
            · next hlen =>
              simp only [RealizeResult.ok.injEq] at hok
              subst hok
              refine ⟨?_, Nat.le_of_not_lt hle⟩
              have hbl : bytes.length ≤ 4 * MIG_V_OTP_NUM_FUSES := by
                unfold blk_check_size_and_read_all at hbytes
                split at hbytes
                · cases hbytes
                · split at hbytes
                  · cases hbytes
                  · simp only [Option.some.injEq] at hbytes
                    subst hbytes
                    rw [List.length_take]
                    omega
              exact length_loaded be s0.fuse_array bytes hfl hbl

/-- Every event preserves the array invariant. -/
theorem step_inv (be : Bool) (s : MiGVOTPState) (op : Access) (h : ArrayInv s) :
    ArrayInv (step be s op) := by
  cases op with
  | read a sz => exact h
  | reset =>
    show ArrayInv (mig_v_otp_enter_reset s)
    unfold mig_v_otp_enter_reset
    cases s.blk with
    | none => exact ⟨List.length_replicate _ _, Nat.le_refl _⟩
    | some b => exact h
  | write a v sz =>
    show ArrayInv (mig_v_otp_write be s a v sz)
    by_cases h0 : a = MIG_V_OTP_ADDR
    · unfold mig_v_otp_write
      rw [if_pos h0]
      exact h
    · by_cases h4 : a = MIG_V_OTP_DATA
      · by_cases hb : s.addr < s.nb_fuses
        · subst h4
          obtain ⟨f, _, n, _⟩ := write_data_fields be s v sz hb
          unfold ArrayInv
          rw [f, n, List.length_set]
          exact h
        · rw [(rejected_write_id be s a v sz (Or.inl ⟨h4, Nat.le_of_not_lt hb⟩))]
          exact h
      · rw [(rejected_write_id be s a v sz (Or.inr ⟨h0, h4⟩))]
        exact h

theorem run_inv (be : Bool) (ops : List Access) :
    ∀ s : MiGVOTPState, ArrayInv s → ArrayInv (run be s ops) := by
  induction ops with
  | nil => intro s h; exact h
  | cons op rest ih => intro s h; exact ih (step be s op) (step_inv be s op h)

/-- A medium longer than the fuse array whose count, reduced modulo `2 ^ 16`,
passes the capacity check is not rejected: the device goes on to the copy. -/
theorem realize_oversized (be : Bool) (blk : BlockBackend)
    (h1 : blk.set_perm_errno = 0) (h2 : blk.getlength_errno = 0) (h3 : blk.pread_errno = 0)
    (hfit : (QEMU_ALIGN_UP blk.data.length 4 >>> 2) % 2 ^ 16 ≤ MIG_V_OTP_NUM_FUSES)
    (hbig : blk.data.length > 4 * MIG_V_OTP_NUM_FUSES) :
    mig_v_otp_realize be (MiGVOTPState.fresh (some blk)) =
      .overrun
        { MiGVOTPState.fresh (some blk) with
            blk_ro := !blk.supports_write,
            blk := some { blk with perm := BLK_PERM_CONSISTENT_READ |||
              (if (!blk.supports_write) = true then 0 else BLK_PERM_WRITE) },
            nb_fuses := (QEMU_ALIGN_UP blk.data.length 4 >>> 2) % 2 ^ 16 }
        blk.data.length := by
  rw [realize_healthy be (MiGVOTPState.fresh (some blk)) blk rfl h1 h2 h3,
    if_neg (Nat.not_lt.mpr hfit), if_pos hbig]

/-! ## C3: media above the capacity -/

/-- C3 at the failing input, a medium of `262144 = 4 * 65536` bytes.  The count
`QEMU_ALIGN_UP(262144, 4) >> 2` is `65536`, above the capacity of 1024; stored
in the `uint16_t` field `nb_fuses` it becomes `0`, the capacity check passes, no
error is set and the device goes on to copy all 262144 bytes of the medium into
its 4096-byte fuse array. -/
theorem realize_oversized_medium_loaded (be : Bool) :
    medium_262144.data.length = 262144
    ∧ QEMU_ALIGN_UP 262144 4 >>> 2 = 65536
    ∧ MIG_V_OTP_NUM_FUSES < 65536
    ∧ (mig_v_otp_realize be (MiGVOTPState.fresh (some medium_262144))).state.nb_fuses = 0
    ∧ (∃ s, mig_v_otp_realize be (MiGVOTPState.fresh (some medium_262144))
          = .overrun s 262144)
    ∧ ∀ e s, mig_v_otp_realize be (MiGVOTPState.fresh (some medium_262144)) ≠ .error e s := by
  have hlen : medium_262144.data.length = 262144 := List.length_replicate _ _
  have hr := realize_oversized be medium_262144 rfl rfl rfl
    (by rw [hlen]; decide) (by rw [hlen]; decide)
  rw [hlen] at hr
  refine ⟨hlen, by decide, by decide, ?_, ⟨_, hr⟩, ?_⟩
  · rw [hr]; rfl
  · intro e s h
    rw [hr] at h
    cases h

/-! ## C7: the stored count and the computed count -/

/-- C7 at the failing input, a medium of `266240 = 4 * 65536 + 4096` bytes.
Realisation computes the count `QEMU_ALIGN_UP(266240, 4) >> 2 = 66560`, above
1024, and does not fail: the `uint16_t` field receives `66560 mod 65536 = 1024`,
which passes the check `nb_fuses > MIG_V_OTP_NUM_FUSES`, and the 266240-byte copy
into the fuse array follows. -/
theorem realize_count_above_capacity_not_rejected (be : Bool) :
    medium_266240.data.length = 266240
    ∧ QEMU_ALIGN_UP 266240 4 >>> 2 = 66560
    ∧ MIG_V_OTP_NUM_FUSES < 66560
    ∧ (mig_v_otp_realize be (MiGVOTPState.fresh (some medium_266240))).state.nb_fuses = 1024
    ∧ (∃ s, mig_v_otp_realize be (MiGVOTPState.fresh (some medium_266240))
          = .overrun s 266240)
    ∧ ∀ e s, mig_v_otp_realize be (MiGVOTPState.fresh (some medium_266240)) ≠ .error e s := by
  have hlen : medium_266240.data.length = 266240 := List.length_replicate _ _
  have hr := realize_oversized be medium_266240 rfl rfl rfl
    (by rw [hlen]; decide) (by rw [hlen]; decide)
  rw [hlen] at hr
  refine ⟨hlen, by decide, by decide, ?_, ⟨_, hr⟩, ?_⟩
  · rw [hr]; rfl
  · intro e s h
    rw [hr] at h
    cases h

/-! ## C8: a failing length query -/

/-- C8 at the failing input, a medium whose length query returns `-5`.
`mig_v_otp_realize` returns at `if (blk_len < 0) return;` with no error set: the
result is `ok`, with `nb_fuses = 0` and the fuse array never loaded. -/
theorem realize_length_failure_not_reported (be : Bool) :
    blk_getlength medium_no_length = -5
    ∧ mig_v_otp_realize be (MiGVOTPState.fresh (some medium_no_length))
        = .ok { MiGVOTPState.fresh (some { medium_no_length with perm := 3 }) with
                blk_ro := false }
    ∧ (mig_v_otp_realize be (MiGVOTPState.fresh (some medium_no_length))).state.nb_fuses = 0 := by
  refine ⟨by decide, ?_, ?_⟩
  · cases be <;> rfl
  · cases be <;> rfl

/-! ## C10: read-only medium -/

/-- Whatever the outcome, realisation with a medium sets `blk_ro` from the
medium's write capability and leaves the medium with the requested permission
mask recorded and nothing else changed. -/
theorem realize_state_blk (be : Bool) (s : MiGVOTPState) (b : BlockBackend)
    (hb : s.blk = some b) :
    (mig_v_otp_realize be s).state.blk_ro = (!b.supports_write)
    ∧ (mig_v_otp_realize be s).state.blk =
        some { b with perm := BLK_PERM_CONSISTENT_READ |||
          (if (!b.supports_write) = true then 0 else BLK_PERM_WRITE) } := by
  unfold mig_v_otp_realize
  rw [hb]
  simp only [blk_set_perm, blk_supports_write_perm]
  split_ifs <;> (try split) <;> simp [RealizeResult.state]

/-- With `blk_ro` set, an event changes neither the medium nor `blk_ro`. -/
theorem step_read_only (be : Bool) (s : MiGVOTPState) (op : Access) (hro : s.blk_ro = true) :
    (step be s op).blk_ro = true ∧ (step be s op).blk = s.blk := by
  cases op with
  | read a sz => exact ⟨hro, rfl⟩
  | reset =>
    show (mig_v_otp_enter_reset s).blk_ro = true ∧ (mig_v_otp_enter_reset s).blk = s.blk
    unfold mig_v_otp_enter_reset
    cases hb : s.blk with
    | none => exact ⟨hro, rfl⟩
    | some b => exact ⟨hro, hb⟩
  | write a v sz =>
    show (mig_v_otp_write be s a v sz).blk_ro = true ∧ (mig_v_otp_write be s a v sz).blk = s.blk
    unfold mig_v_otp_write
    split_ifs
    · exact ⟨hro, rfl⟩
    · cases hb : s.blk with
      | none => simp [hro]
      | some b => simp [hro]
    · exact ⟨hro, rfl⟩
    · exact ⟨hro, rfl⟩

theorem run_read_only (be : Bool) (ops : List Access) :
    ∀ s : MiGVOTPState, s.blk_ro = true →
      (run be s ops).blk_ro = true ∧ (run be s ops).blk = s.blk := by
  induction ops with
  | nil => intro s h; exact ⟨h, rfl⟩
  | cons op rest ih =>
    intro s h
    obtain ⟨h1, h2⟩ := step_read_only be s op h
    obtain ⟨h3, h4⟩ := ih (step be s op) h1
    exact ⟨h3, h4.trans h2⟩

/-- C10. Realising a device on a medium that reports no write capability sets
`blk_ro` and requests the read permission only, whatever the outcome.  When
realisation succeeds, then after any sequence of reads, writes and resets
`blk_ro` is still set and the medium (contents and record of `blk_pwrite`
requests) is the one realisation left; and a data write with the selector below
`nb_fuses` turns the selected word into `old | (uint32_t)v` without touching the
medium. -/
theorem read_only_medium (be : Bool) (blk : BlockBackend)
    (hro : blk_supports_write_perm blk = false) :
    (mig_v_otp_realize be (MiGVOTPState.fresh (some blk))).state.blk_ro = true
    ∧ (mig_v_otp_realize be (MiGVOTPState.fresh (some blk))).state.blk
        = some { blk with perm := BLK_PERM_CONSISTENT_READ }
    ∧ ∀ s1, mig_v_otp_realize be (MiGVOTPState.fresh (some blk)) = .ok s1 →
        ∀ ops : List Access,
          (run be s1 ops).blk_ro = true
          ∧ (run be s1 ops).blk = some { blk with perm := BLK_PERM_CONSISTENT_READ }
          ∧ ∀ v size, (run be s1 ops).addr < (run be s1 ops).nb_fuses →
              (mig_v_otp_write be (run be s1 ops) MIG_V_OTP_DATA v size).fuse_array.getD
                  (run be s1 ops).addr 0
                = (run be s1 ops).fuse_array.getD (run be s1 ops).addr 0 ||| v % 2 ^ 32
              ∧ (mig_v_otp_write be (run be s1 ops) MIG_V_OTP_DATA v size).blk
                = (run be s1 ops).blk := by
  have hsw : blk.supports_write = false := hro
  obtain ⟨hA, hB⟩ := realize_state_blk be (MiGVOTPState.fresh (some blk)) blk rfl
  have hperm : (BLK_PERM_CONSISTENT_READ |||
      if (!blk.supports_write) = true then 0 else BLK_PERM_WRITE) = BLK_PERM_CONSISTENT_READ := by
    rw [hsw]; rfl
  rw [hsw] at hA
  rw [hperm] at hB
  have hB1 : (mig_v_otp_realize be (MiGVOTPState.fresh (some blk))).state.blk
      = some { blk with perm := BLK_PERM_CONSISTENT_READ } := hB
  refine ⟨hA, hB1, ?_⟩
  intro s1 hok ops
  have hinv1 : ArrayInv s1 := realize_ok_inv be (some blk) s1 hok
  rw [hok] at hA hB1
  have hro1 : s1.blk_ro = true := hA
  have hblk1 : s1.blk = some { blk with perm := BLK_PERM_CONSISTENT_READ } := hB1
  obtain ⟨hr, hb⟩ := run_read_only be ops s1 hro1
  obtain ⟨hlen, hnb⟩ := run_inv be ops s1 hinv1
  refine ⟨hr, hb.trans hblk1, ?_⟩
  intro v size hlt
  obtain ⟨f, _, _, _⟩ := write_data_fields be (run be s1 ops) v size hlt
  constructor
  · rw [f, getD_set, if_pos ⟨rfl, by omega⟩]
  · exact (step_read_only be (run be s1 ops) (.write MIG_V_OTP_DATA v size) hr).2

/-! ## Words and bytes -/

theorem host_bytes_lt (be : Bool) (w : Nat) : ∀ x ∈ host_bytes be w, x < 256 := by
  intro x hx
  cases be <;> simp [host_bytes, le_bytes] at hx <;> omega

theorem host_word_lt (be : Bool) (b0 b1 b2 b3 : Nat)
    (h0 : b0 < 256) (h1 : b1 < 256) (h2 : b2 < 256) (h3 : b3 < 256) :
    host_word be b0 b1 b2 b3 < 2 ^ 32 := by
  cases be <;> simp [host_word] <;> omega

theorem words_of_host_bytes (be : Bool) (w : Nat) (rest : List Nat) (hw : w < 2 ^ 32) :
    words_of_bytes be (host_bytes be w ++ rest) = w :: words_of_bytes be rest := by
  cases be <;> simp [host_bytes, le_bytes, words_of_bytes, host_word] <;> omega

/-- Every word read from a byte string is a 32-bit value. -/
theorem words_of_bytes_lt (be : Bool) :
    ∀ (n : Nat) (bs : List Nat), bs.length ≤ n → (∀ x ∈ bs, x < 256) →
      ∀ w ∈ words_of_bytes be bs, w < 2 ^ 32 := by
  intro n
  induction n with
  | zero =>
    intro bs h _ w hw
    have : bs = [] := List.length_eq_zero.mp (by omega)
    subst this
    simp [words_of_bytes] at hw
  | succ n ih =>
    intro bs h hb w hw
    match bs, h, hb, hw with
    | b0 :: b1 :: b2 :: b3 :: rest, h, hb, hw =>
      simp only [words_of_bytes, List.mem_cons] at hw
      rcases hw with hw | hw
      · subst hw
        exact host_word_lt be b0 b1 b2 b3 (hb b0 (by simp)) (hb b1 (by simp))
          (hb b2 (by simp)) (hb b3 (by simp))
      · simp only [List.length_cons] at h
        exact ih rest (by omega) (fun x hx => hb x (by simp [hx])) w hw
    | [], _, _, hw => simp [words_of_bytes] at hw
    | [_], _, _, hw => simp [words_of_bytes] at hw
    | [_, _], _, _, hw => simp [words_of_bytes] at hw
    | [_, _, _], _, _, hw => simp [words_of_bytes] at hw

/-- Reading words distributes over a split at a word boundary. -/
theorem words_of_bytes_append (be : Bool) :
    ∀ (n : Nat) (a b : List Nat), a.length = 4 * n →
      words_of_bytes be (a ++ b) = words_of_bytes be a ++ words_of_bytes be b := by
  intro n
  induction n with
  | zero =>
    intro a b h
    have : a = [] := List.length_eq_zero.mp (by omega)
    subst this
    simp [words_of_bytes]
  | succ n ih =>
    intro a b h
    match a, h with
    | b0 :: b1 :: b2 :: b3 :: rest, h =>
      simp only [List.length_cons] at h
      have e := ih rest b (by omega)
      simp only [List.cons_append, words_of_bytes]
      exact congrArg _ e
    | [], h => simp at h
    | [_], h => simp at h; omega
    | [_, _], h => simp at h; omega
    | [_, _, _], h => simp at h; omega

/-- Replacing the four bytes of word `k` in a byte string replaces word `k`. -/
theorem words_of_bytes_patch (be : Bool) (w : Nat) (hw : w < 2 ^ 32) :
    ∀ (k : Nat) (data : List Nat), 4 * k + 4 ≤ data.length →
      words_of_bytes be (data.take (4 * k) ++ host_bytes be w ++ data.drop (4 * k + 4))
        = (words_of_bytes be data).set k w := by
  intro k
  induction k with
  | zero =>
    intro data h
    match data, h with
    | b0 :: b1 :: b2 :: b3 :: rest, h =>
      simp only [Nat.mul_zero, List.take_zero, List.nil_append, Nat.zero_add,
        List.drop_succ_cons, List.drop_zero, words_of_bytes, List.set_cons_zero]
      exact words_of_host_bytes be w rest hw
    | [], h => simp at h
    | [_], h => simp at h
    | [_, _], h => simp at h
    | [_, _, _], h => simp at h
  | succ k ih =>
    intro data h
    match data, h with
    | b0 :: b1 :: b2 :: b3 :: rest, h =>
      simp only [List.length_cons] at h
      have e1 : 4 * (k + 1) = 4 * k + 1 + 1 + 1 + 1 := by omega
      have e2 : 4 * (k + 1) + 4 = (4 * k + 4) + 1 + 1 + 1 + 1 := by omega
      rw [e2, e1]
      have e := ih rest (by omega)
      simp only [List.take_succ_cons, List.drop_succ_cons, List.cons_append, words_of_bytes,
        List.set_cons_succ]
      exact congrArg _ e
    | [], h => simp at h
    | [_], h => simp at h
    | [_, _], h => simp at h
    | [_, _, _], h => simp at h

/-! ## Device and medium in step -/

theorem stored_count_aligned (n : Nat) (hn : n ≤ MIG_V_OTP_NUM_FUSES) :
    (QEMU_ALIGN_UP (4 * n) 4 >>> 2) % 2 ^ 16 = n := by
  have hN : MIG_V_OTP_NUM_FUSES = 1024 := rfl
  rw [hN] at hn
  unfold QEMU_ALIGN_UP
  rw [Nat.shiftRight_eq_div_pow]
  norm_num
  omega

/-- Realisation on a healthy medium of `n ≤ 1024` whole words. -/
theorem realize_whole_words (be : Bool) (s : MiGVOTPState) (blk : BlockBackend) (n : Nat)
    (hb : s.blk = some blk) (hh : blk.healthy) (hL : blk.data.length = 4 * n)
    (hn : n ≤ MIG_V_OTP_NUM_FUSES) :
    mig_v_otp_realize be s =
      .ok { s with blk_ro := !blk.supports_write,
                   blk := some { blk with perm := BLK_PERM_CONSISTENT_READ |||
                     (if (!blk.supports_write) = true then 0 else BLK_PERM_WRITE) },
                   nb_fuses := n,
                   fuse_array := words_of_bytes be
                     (blk.data ++ (bytes_of_words be s.fuse_array).drop blk.data.length) } := by
  obtain ⟨h1, h2, h3, _⟩ := hh
  rw [realize_healthy be s blk hb h1 h2 h3, hL, stored_count_aligned n hn,
    if_neg (Nat.not_lt.mpr hn), if_neg (by omega)]

/-- The loaded fuse array starts with the words of the medium. -/
theorem take_loaded (be : Bool) (fa data : List Nat) (n : Nat) (hL : data.length = 4 * n) :
    (words_of_bytes be (data ++ (bytes_of_words be fa).drop data.length)).take n
      = words_of_bytes be data := by
  rw [words_of_bytes_append be n data _ hL]
  have hlen : (words_of_bytes be data).length = n := length_words_of_bytes be n data hL
  rw [List.take_append_of_le_length (by omega), List.take_of_length_le (by omega)]

/-- A healthy writable medium of whole words leaves device and medium in step. -/
theorem realize_synced (be : Bool) (blk : BlockBackend) (n : Nat) (s1 : MiGVOTPState)
    (hw : blk.supports_write = true) (hh : blk.healthy) (hbytes : ∀ x ∈ blk.data, x < 256)
    (hL : blk.data.length = 4 * n) (hn : n ≤ MIG_V_OTP_NUM_FUSES)
    (hok : mig_v_otp_realize be (MiGVOTPState.fresh (some blk)) = .ok s1) :
    s1.nb_fuses = n
    ∧ s1.fuse_array.take n = words_of_bytes be blk.data
    ∧ s1.blk = some { blk with perm := BLK_PERM_CONSISTENT_READ ||| BLK_PERM_WRITE }
    ∧ s1.addr = 0
    ∧ Synced be s1 := by
  have hinv := realize_ok_inv be (some blk) s1 hok
  rw [realize_whole_words be _ blk n rfl hh hL hn] at hok
  simp only [RealizeResult.ok.injEq] at hok
  subst hok
  have htake := take_loaded be (MiGVOTPState.fresh (some blk)).fuse_array blk.data n hL
  have hperm : (BLK_PERM_CONSISTENT_READ |||
      if (!blk.supports_write) = true then 0 else BLK_PERM_WRITE)
      = BLK_PERM_CONSISTENT_READ ||| BLK_PERM_WRITE := by
    rw [hw]; rfl
  refine ⟨rfl, htake, ?_, rfl, ?_⟩
  · show some _ = some _
    rw [hperm]
  · refine ⟨_, rfl, ?_, hh.2.2.2, hL, hn, hinv.1, hbytes, htake⟩
    show (!blk.supports_write) = false
    rw [hw]; rfl

/-- An in-range `blk_pwrite` on a medium without write errors. -/
theorem blk_pwrite_in_range (b : BlockBackend) (off : Nat) (buf : List Nat)
    (he : b.pwrite_errno = 0) (hr : off + buf.length ≤ b.data.length) :
    blk_pwrite b off buf =
      (0, { b with pwrite_calls := b.pwrite_calls ++ [(off, buf)],
                   data := b.data.take off ++ buf ++ b.data.drop (off + buf.length) }) := by
  unfold blk_pwrite
  simp only [he, ne_eq, not_true_eq_false, if_false, if_pos hr]

/-- The medium after an in-bounds data write to a device with a writable medium. -/
theorem write_data_blk (be : Bool) (s : MiGVOTPState) (b : BlockBackend) (val64 size : Nat)
    (hb : s.blk = some b) (hro : s.blk_ro = false) (h : s.addr < s.nb_fuses) :
    (mig_v_otp_write be s MIG_V_OTP_DATA val64 size).blk =
      some (blk_pwrite b (s.addr * 4 % 2 ^ 32)
        (host_bytes be (s.fuse_array.getD s.addr 0 ||| (val64 % 2 ^ 32)))).2 := by
  have h40 : MIG_V_OTP_DATA ≠ MIG_V_OTP_ADDR := by decide
  unfold mig_v_otp_write
  rw [if_neg h40, if_pos rfl, if_pos h]
  simp [hb, hro]

theorem getD_take (l : List Nat) (i n : Nat) (h : i < n) :
    (l.take n).getD i 0 = l.getD i 0 := by
  simp [List.getD_eq_getElem?_getD, List.getElem?_take, h]

theorem getD_lt_of_all (l : List Nat) (i B : Nat) (hB : 0 < B) (h : ∀ w ∈ l, w < B) :
    l.getD i 0 < B := by
  rw [List.getD_eq_getElem?_getD]
  cases hg : l[i]? with
  | none => exact hB
  | some w => exact h w (List.getElem?_mem hg)

/-- An in-bounds data write keeps device and medium in step: the four bytes go
inside the medium, the request succeeds, and word `addr` changes on both sides. -/
theorem write_data_synced (be : Bool) (s : MiGVOTPState) (val64 size : Nat)
    (hs : Synced be s) (h : s.addr < s.nb_fuses) :
    Synced be (mig_v_otp_write be s MIG_V_OTP_DATA val64 size)
    ∧ ∃ b, s.blk = some b
        ∧ s.addr * 4 % 2 ^ 32 = s.addr * 4
        ∧ s.addr * 4 + 4 ≤ b.data.length
        ∧ (blk_pwrite b (s.addr * 4 % 2 ^ 32)
            (host_bytes be (s.fuse_array.getD s.addr 0 ||| (val64 % 2 ^ 32)))).1 = 0
        ∧ (mig_v_otp_write be s MIG_V_OTP_DATA val64 size).blk =
            some { b with
              pwrite_calls := b.pwrite_calls ++
                [(s.addr * 4, host_bytes be (s.fuse_array.getD s.addr 0 ||| (val64 % 2 ^ 32)))],
              data := b.data.take (4 * s.addr)
                ++ host_bytes be (s.fuse_array.getD s.addr 0 ||| (val64 % 2 ^ 32))
                ++ b.data.drop (4 * s.addr + 4) } := by
  obtain ⟨b, hb, hro, he, hL, hn, hlen, hbytes, htake⟩ := hs
  have hN : MIG_V_OTP_NUM_FUSES = 1024 := rfl
  rw [hN] at hn
  have hoff : s.addr * 4 % 2 ^ 32 = s.addr * 4 := by
    apply Nat.mod_eq_of_lt
    norm_num
    omega
  have hcomm : s.addr * 4 = 4 * s.addr := Nat.mul_comm _ _
  have hr : s.addr * 4 + (host_bytes be (s.fuse_array.getD s.addr 0 ||| (val64 % 2 ^ 32))).length
      ≤ b.data.length := by
    rw [length_host_bytes]; omega
  obtain ⟨f, a, n, r⟩ := write_data_fields be s val64 size h
  have hblk := write_data_blk be s b val64 size hb hro h
  rw [hoff, blk_pwrite_in_range b _ _ he hr, length_host_bytes] at hblk
  simp only at hblk
  rw [hcomm] at hblk
  have hold : s.fuse_array.getD s.addr 0 < 2 ^ 32 := by
    rw [← getD_take s.fuse_array s.addr s.nb_fuses h, htake]
    exact getD_lt_of_all _ _ _ (by norm_num)
      (words_of_bytes_lt be b.data.length b.data (Nat.le_refl _) hbytes)
  have hword : s.fuse_array.getD s.addr 0 ||| (val64 % 2 ^ 32) < 2 ^ 32 :=
    Nat.or_lt_two_pow hold (Nat.mod_lt _ (by norm_num))
  refine ⟨⟨_, hblk, ?_, he, ?_, ?_, ?_, ?_, ?_⟩, b, hb, hoff, by rw [length_host_bytes] at hr; exact hr, ?_, ?_⟩
  · rw [r]; exact hro
  · rw [n]
    simp only [List.length_append, List.length_take, List.length_drop, length_host_bytes]
    omega
  · rw [n, hN]; exact hn
  · rw [f, List.length_set]; exact hlen
  · intro x hx
    simp only [List.mem_append] at hx
    rcases hx with (hx | hx) | hx
    · exact hbytes x (List.mem_of_mem_take hx)
    · exact host_bytes_lt be _ x hx
    · exact hbytes x (List.mem_of_mem_drop hx)
  · rw [n, f, List.set_take, htake]
    exact (words_of_bytes_patch be _ hword s.addr b.data (by omega)).symm
  · rw [hoff, blk_pwrite_in_range b _ _ he hr]
  · rw [hblk, hcomm]

theorem medium_words_whole (be : Bool) (b : BlockBackend) (n : Nat)
    (hL : b.data.length = 4 * n) : medium_words be b = words_of_bytes be b.data := by
  unfold medium_words
  have : (4 - b.data.length % 4) % 4 = 0 := by omega
  rw [this, List.replicate_zero, List.append_nil]

/-- Every event keeps device and medium in step. -/
theorem step_synced (be : Bool) (s : MiGVOTPState) (op : Access) (hs : Synced be s) :
    Synced be (step be s op) := by
  cases op with
  | read a sz => exact hs
  | reset =>
    show Synced be (mig_v_otp_enter_reset s)
    obtain ⟨b, hb, _⟩ := hs
    have : mig_v_otp_enter_reset s = s := by
      unfold mig_v_otp_enter_reset
      rw [hb]
    rw [this]
    exact ⟨b, hb, ‹_›⟩
  | write a v sz =>
    show Synced be (mig_v_otp_write be s a v sz)
    by_cases h0 : a = MIG_V_OTP_ADDR
    · unfold mig_v_otp_write
      rw [if_pos h0]
      exact hs
    · by_cases h4 : a = MIG_V_OTP_DATA
      · by_cases hb : s.addr < s.nb_fuses
        · subst h4
          exact (write_data_synced be s v sz hs hb).1
        · rw [rejected_write_id be s a v sz (Or.inl ⟨h4, Nat.le_of_not_lt hb⟩)]
          exact hs
      · rw [rejected_write_id be s a v sz (Or.inr ⟨h0, h4⟩)]
        exact hs

theorem run_synced (be : Bool) (ops : List Access) :
    ∀ s : MiGVOTPState, Synced be s → Synced be (run be s ops) := by
  induction ops with
  | nil => intro s h; exact h
  | cons op rest ih => intro s h; exact ih (step be s op) (step_synced be s op h)

/-- A healthy medium that realisation accepts fits the fuse array. -/
theorem accepted_fits (be : Bool) (blk : BlockBackend) (s1 : MiGVOTPState)
    (hh : blk.healthy)
    (hok : mig_v_otp_realize be (MiGVOTPState.fresh (some blk)) = .ok s1) :
    blk.data.length ≤ 4 * MIG_V_OTP_NUM_FUSES := by
  obtain ⟨h1, h2, h3, _⟩ := hh
  rw [realize_healthy be _ blk rfl h1 h2 h3] at hok
  by_contra hbig
  have hbig1 : blk.data.length > 4 * MIG_V_OTP_NUM_FUSES := Nat.lt_of_not_le hbig
  by_cases hc : (QEMU_ALIGN_UP blk.data.length 4 >>> 2) % 2 ^ 16 > MIG_V_OTP_NUM_FUSES
  · rw [if_pos hc] at hok
    cases hok
  · rw [if_neg hc, if_pos hbig1] at hok
    cases hok

/-- One data write to a device in step with its medium, followed by a fresh
realisation on the medium as the write left it. -/
theorem write_then_realize (be : Bool) (s : MiGVOTPState) (b : BlockBackend) (n v size : Nat)
    (hs : Synced be s) (hb : s.blk = some b) (hw : b.supports_write = true)
    (hh : b.healthy) (hnb : s.nb_fuses = n) (hlt : s.addr < n) :
    ∃ blk2 s3,
      (mig_v_otp_write be s MIG_V_OTP_DATA v size).blk = some blk2
      ∧ mig_v_otp_realize be (MiGVOTPState.fresh (some blk2)) = .ok s3
      ∧ s3.nb_fuses = n
      ∧ s3.fuse_array.take n
          = (s.fuse_array.take n).set s.addr (s.fuse_array.getD s.addr 0 ||| v % 2 ^ 32) := by
  have hlt1 : s.addr < s.nb_fuses := by rw [hnb]; exact hlt
  obtain ⟨hsync2, b1, hb1, _, _, _, hblk2⟩ := write_data_synced be s v size hs hlt1
  obtain ⟨f2, _, n2, _⟩ := write_data_fields be s v size hlt1
  have hbeq : b1 = b := Option.some.inj (hb1.symm.trans hb)
  subst hbeq
  obtain ⟨b2, hb2, _, _, hL2, hn2, _, hbytes2, htake2⟩ := hsync2
  rw [n2, hnb] at hL2 htake2 hn2
  have e2 : b2 = _ := Option.some.inj (hb2.symm.trans hblk2)
  have hh2 : b2.healthy := by rw [e2]; exact hh
  have hw2 : b2.supports_write = true := by rw [e2]; exact hw
  have hok3 := realize_whole_words be (MiGVOTPState.fresh (some b2)) b2 n rfl hh2 hL2 hn2
  obtain ⟨hnb3, htake3, _, _, _⟩ := realize_synced be b2 n _ hw2 hh2 hbytes2 hL2 hn2 hok3
  refine ⟨b2, _, hb2, hok3, hnb3, ?_⟩
  rw [htake3, ← htake2, f2, List.set_take]

/-! ## C5: round trip through the medium -/

/-- C5. For a writable medium that answers every request without error and holds
bytes `b` (each below 256) of a length `L` that is a multiple of 4 and at most
4096: realisation succeeds with `nb_fuses = L / 4` and the first `L / 4` fuses
equal to `b` read as 32-bit words in host byte order; and for every `k < L / 4`
and value `v`, selecting `k`, writing `v` to the data port and realising a fresh
device on the medium as the write left it succeeds again with `nb_fuses = L / 4`
and with the words of `b` except that word `k` is `original word k | (uint32_t)v`. -/
theorem medium_round_trip (be : Bool) (blk : BlockBackend)
    (hw : blk.supports_write = true) (hh : blk.healthy)
    (hbytes : ∀ x ∈ blk.data, x < 256)
    (hL : blk.data.length % 4 = 0) (hcap : blk.data.length ≤ 4096) :
    ∃ s1, mig_v_otp_realize be (MiGVOTPState.fresh (some blk)) = .ok s1
      ∧ s1.nb_fuses = blk.data.length / 4
      ∧ s1.fuse_array.take (blk.data.length / 4) = words_of_bytes be blk.data
      ∧ ∀ k v size1 size2, k < blk.data.length / 4 →
          ∃ blk2 s3,
            (mig_v_otp_write be (mig_v_otp_write be s1 MIG_V_OTP_ADDR k size1)
                MIG_V_OTP_DATA v size2).blk = some blk2
            ∧ mig_v_otp_realize be (MiGVOTPState.fresh (some blk2)) = .ok s3
            ∧ s3.nb_fuses = blk.data.length / 4
            ∧ s3.fuse_array.take (blk.data.length / 4)
                = (words_of_bytes be blk.data).set k
                    ((words_of_bytes be blk.data).getD k 0 ||| v % 2 ^ 32) := by
  have hN : MIG_V_OTP_NUM_FUSES = 1024 := rfl
  have hL4 : blk.data.length = 4 * (blk.data.length / 4) := by omega
  generalize blk.data.length / 4 = n at hL4 ⊢
  have hn : n ≤ MIG_V_OTP_NUM_FUSES := by rw [hN]; omega
  have hok := realize_whole_words be (MiGVOTPState.fresh (some blk)) blk n rfl hh hL4 hn
  obtain ⟨s1, hs1⟩ : ∃ s1, mig_v_otp_realize be (MiGVOTPState.fresh (some blk)) = .ok s1 :=
    ⟨_, hok⟩
  refine ⟨s1, hs1, ?_⟩
  obtain ⟨hnb, htake, hblk, haddr, hsync⟩ := realize_synced be blk n s1 hw hh hbytes hL4 hn hs1
  refine ⟨hnb, htake, ?_⟩
  intro k v size1 size2 hk
  -- selecting fuse `k`
  obtain ⟨sk, hsk⟩ : ∃ sk, sk = mig_v_otp_write be s1 MIG_V_OTP_ADDR k size1 := ⟨_, rfl⟩
  have hsel : sk = { s1 with addr := k } := by
    rw [hsk]
    unfold mig_v_otp_write
    rw [if_pos rfl, Nat.mod_eq_of_lt (by rw [hN] at hn; norm_num; omega)]
  have hsync1 : Synced be sk := by rw [hsel]; exact hsync
  have hk1 : sk.addr = k := by rw [hsel]
  have hf1 : sk.fuse_array = s1.fuse_array := by rw [hsel]
  have hnb1 : sk.nb_fuses = n := by rw [hsel]; exact hnb
  have hblk1 : sk.blk = some { blk with perm := BLK_PERM_CONSISTENT_READ ||| BLK_PERM_WRITE } := by
    rw [hsel]; exact hblk
  rw [← hsk]
  obtain ⟨blk2, s3, h1, h2, h3, h4⟩ :=
    write_then_realize be sk _ n v size2 hsync1 hblk1 hw hh hnb1 (by rw [hk1]; exact hk)
  refine ⟨blk2, s3, h1, h2, h3, ?_⟩
  rw [h4, hk1, hf1, ← getD_take s1.fuse_array k n hk, htake]

/-- C5 on a medium of two words. -/
theorem medium_round_trip_witness :
    ∃ s1, mig_v_otp_realize false (MiGVOTPState.fresh (some medium_8)) = .ok s1
      ∧ s1.nb_fuses = medium_8.data.length / 4
      ∧ s1.fuse_array.take (medium_8.data.length / 4) = words_of_bytes false medium_8.data
      ∧ ∀ k v size1 size2, k < medium_8.data.length / 4 →
          ∃ blk2 s3,
            (mig_v_otp_write false (mig_v_otp_write false s1 MIG_V_OTP_ADDR k size1)
                MIG_V_OTP_DATA v size2).blk = some blk2
            ∧ mig_v_otp_realize false (MiGVOTPState.fresh (some blk2)) = .ok s3
            ∧ s3.nb_fuses = medium_8.data.length / 4
            ∧ s3.fuse_array.take (medium_8.data.length / 4)
                = (words_of_bytes false medium_8.data).set k
                    ((words_of_bytes false medium_8.data).getD k 0 ||| v % 2 ^ 32) :=
  medium_round_trip false medium_8 rfl ⟨rfl, rfl, rfl, rfl⟩ (by decide) (by decide) (by decide)

/-! ## C6: write-through consistency -/

/-- C6 fails for a medium whose length is not a multiple of 4.  A writable
five-byte medium is accepted with `nb_fuses = 2`.  With fuse 1 selected the
selector is below `nb_fuses`, but the write-through of a data write covers bytes
4 to 7 of a medium that ends at byte 4: the request lies outside the medium and
fails, the medium keeps its contents, and fuse 1 (`0xFF`) no longer equals the
medium's word 1 (`5`). -/
theorem write_through_tail_word_counterexample :
    medium_5.supports_write = true
    ∧ medium_5.healthy
    ∧ ∃ s1, mig_v_otp_realize false (MiGVOTPState.fresh (some medium_5)) = .ok s1
      ∧ s1.nb_fuses = 2
      ∧ (mig_v_otp_write false s1 MIG_V_OTP_ADDR 1 4).addr
          < (mig_v_otp_write false s1 MIG_V_OTP_ADDR 1 4).nb_fuses
      ∧ ¬ ((mig_v_otp_write false s1 MIG_V_OTP_ADDR 1 4).addr * 4 % 2 ^ 32 + 4
            ≤ medium_5.data.length)
      ∧ ∃ b1 b2, (mig_v_otp_write false s1 MIG_V_OTP_ADDR 1 4).blk = some b1
          ∧ (blk_pwrite b1 4 (host_bytes false (5 ||| 0xFF))).1 = -5
          ∧ (mig_v_otp_write false (mig_v_otp_write false s1 MIG_V_OTP_ADDR 1 4)
                MIG_V_OTP_DATA 0xFF 4).blk = some b2
          ∧ b2.data = [1, 2, 3, 4, 5]
          ∧ b2.pwrite_calls = [(4, [0xFF, 0, 0, 0])]
          ∧ medium_words false b2 = [0x04030201, 5]
          ∧ (mig_v_otp_write false (mig_v_otp_write false s1 MIG_V_OTP_ADDR 1 4)
                MIG_V_OTP_DATA 0xFF 4).fuse_array.take 2 = [0x04030201, 0xFF]
          ∧ (mig_v_otp_write false (mig_v_otp_write false s1 MIG_V_OTP_ADDR 1 4)
                MIG_V_OTP_DATA 0xFF 4).fuse_array.take
              (mig_v_otp_write false (mig_v_otp_write false s1 MIG_V_OTP_ADDR 1 4)
                MIG_V_OTP_DATA 0xFF 4).nb_fuses ≠ medium_words false b2 :=
  ⟨rfl, ⟨rfl, rfl, rfl, rfl⟩,
    (mig_v_otp_realize false (MiGVOTPState.fresh (some medium_5))).state,
    by decide, by decide, by decide, by decide,
    { medium_5 with perm := 3 },
    { medium_5 with perm := 3, pwrite_calls := [(4, [0xFF, 0, 0, 0])] },
    by decide, by decide, by decide, by decide, by decide, by decide, by decide, by decide⟩

/-- C6, amended.  For a writable medium that answers every request without
error, whose bytes are below 256 and whose length is a multiple of 4, and that
realisation accepts: in every state reached by reads, writes and resets the
first `nb_fuses` fuses equal the medium's current contents read as 4-byte words;
and for each data write with the selector below `nb_fuses` the four bytes at
offset `selector * 4` lie inside the medium, the `blk_pwrite` request succeeds,
and the equality holds again afterwards. -/
theorem write_through_consistency (be : Bool) (blk : BlockBackend) (s1 : MiGVOTPState)
    (hw : blk.supports_write = true) (hh : blk.healthy)
    (hbytes : ∀ x ∈ blk.data, x < 256)
    (hL : blk.data.length % 4 = 0)
    (hok : mig_v_otp_realize be (MiGVOTPState.fresh (some blk)) = .ok s1) :
    ∀ ops : List Access,
      (∃ b, (run be s1 ops).blk = some b
        ∧ (run be s1 ops).fuse_array.take (run be s1 ops).nb_fuses = medium_words be b)
      ∧ ∀ v size, (run be s1 ops).addr < (run be s1 ops).nb_fuses →
          ∃ b b2, (run be s1 ops).blk = some b
            ∧ (run be s1 ops).addr * 4 % 2 ^ 32 + 4 ≤ b.data.length
            ∧ (blk_pwrite b ((run be s1 ops).addr * 4 % 2 ^ 32)
                (host_bytes be
                  ((run be s1 ops).fuse_array.getD (run be s1 ops).addr 0 ||| v % 2 ^ 32))).1 = 0
            ∧ (mig_v_otp_write be (run be s1 ops) MIG_V_OTP_DATA v size).blk = some b2
            ∧ (mig_v_otp_write be (run be s1 ops) MIG_V_OTP_DATA v size).fuse_array.take
                (mig_v_otp_write be (run be s1 ops) MIG_V_OTP_DATA v size).nb_fuses
                = medium_words be b2 := by
  have hN : MIG_V_OTP_NUM_FUSES = 1024 := rfl
  have hfit := accepted_fits be blk s1 hh hok
  have hL4 : blk.data.length = 4 * (blk.data.length / 4) := by omega
  have hn : blk.data.length / 4 ≤ MIG_V_OTP_NUM_FUSES := by rw [hN] at hfit ⊢; omega
  obtain ⟨_, _, _, _, hsync⟩ :=
    realize_synced be blk (blk.data.length / 4) s1 hw hh hbytes hL4 hn hok
  intro ops
  have hs := run_synced be ops s1 hsync
  constructor
  · obtain ⟨b, hb, _, _, hLb, _, _, _, htake⟩ := hs
    exact ⟨b, hb, by rw [medium_words_whole be b _ hLb]; exact htake⟩
  · intro v size hlt
    obtain ⟨hs2, b, hb, hoff, hin, hret, _⟩ :=
      write_data_synced be (run be s1 ops) v size hs hlt
    obtain ⟨b2, hb2, _, _, hLb2, _, _, _, htake2⟩ := hs2
    refine ⟨b, b2, hb, by rw [hoff]; exact hin, hret, hb2, ?_⟩
    rw [medium_words_whole be b2 _ hLb2]
    exact htake2

/-- C6, amended, on a medium of two words: after selecting fuse 1 and writing
`0xFF00`, fuses and medium agree, and a further data write stays inside the
medium. -/
theorem write_through_consistency_witness :
    mig_v_otp_realize false (MiGVOTPState.fresh (some medium_8))
        = .ok (mig_v_otp_realize false (MiGVOTPState.fresh (some medium_8))).state
    ∧ ∃ b, (run false (mig_v_otp_realize false (MiGVOTPState.fresh (some medium_8))).state
              [.write MIG_V_OTP_ADDR 1 4, .write MIG_V_OTP_DATA 0xFF00 4]).blk = some b
        ∧ (run false (mig_v_otp_realize false (MiGVOTPState.fresh (some medium_8))).state
              [.write MIG_V_OTP_ADDR 1 4, .write MIG_V_OTP_DATA 0xFF00 4]).fuse_array.take
            (run false (mig_v_otp_realize false (MiGVOTPState.fresh (some medium_8))).state
              [.write MIG_V_OTP_ADDR 1 4, .write MIG_V_OTP_DATA 0xFF00 4]).nb_fuses
          = medium_words false b :=
  ⟨by decide, (write_through_consistency false medium_8
    (mig_v_otp_realize false (MiGVOTPState.fresh (some medium_8))).state
    rfl ⟨rfl, rfl, rfl, rfl⟩ (by decide) (by decide) (by decide)
    [.write MIG_V_OTP_ADDR 1 4, .write MIG_V_OTP_DATA 0xFF00 4]).1⟩

/-- C10 on a read-only medium of two words: realisation succeeds, and after
selecting fuse 1 a data write of `0xFF00` changes the fuse but not the medium. -/
theorem read_only_medium_witness :
    blk_supports_write_perm medium_ro8 = false
    ∧ (mig_v_otp_realize false (MiGVOTPState.fresh (some medium_ro8))).state.blk_ro = true
    ∧ (mig_v_otp_realize false (MiGVOTPState.fresh (some medium_ro8))).state.blk
        = some { medium_ro8 with perm := BLK_PERM_CONSISTENT_READ }
    ∧ (run false (mig_v_otp_realize false (MiGVOTPState.fresh (some medium_ro8))).state
          [.write MIG_V_OTP_ADDR 1 4, .write MIG_V_OTP_DATA 0xFF00 4]).blk
        = some { medium_ro8 with perm := BLK_PERM_CONSISTENT_READ } :=
  ⟨rfl, (read_only_medium false medium_ro8 rfl).1, (read_only_medium false medium_ro8 rfl).2.1,
    ((read_only_medium false medium_ro8 rfl).2.2 _ (by decide) _).2.1⟩

end MigVOtp
